import Mathlib

/-!
Verification of the VideoEnhancer pipeline orchestrator against its
natural-language specification.  The Python sources under `src/ml` are
shallowly embedded: pure data flow becomes Lean functions, external
collaborators (OpenCV reads and writes, the Real-ESRGAN upsampler, the ffmpeg
subprocess, the object store) become explicit function parameters, and every
`raise` becomes an `Except.error` value.
-/

namespace VideoEnhancer

/-- Abstract decoded image: spatial dimensions plus an abstract pixel buffer. -/
structure Image where
  width : Nat
  height : Nat
  data : List Nat
deriving DecidableEq

/-- The four boolean quality flags returned by get_quality_score
(quality_check.py). -/
structure Verdict where
  blurry : Bool
  dark : Bool
  low_resolution : Bool
  pixelated : Bool
deriving DecidableEq

/-- One entry of the analyzer result list (analyzer.py lines 47-49): the
quality verdict dict produced by get_quality_score together with the filename
key added by analyze_video.  The filename is modelled by the frame's ordinal
index, which determines it (frame_000000.jpg, frame_000001.jpg, ...). -/
structure AnalyzedFrame where
  filename : Nat
  blurry : Bool
  dark : Bool
  low_resolution : Bool
  pixelated : Bool
deriving DecidableEq

/-- Attach the filename to a verdict, as analyze_video does with
quality_score["filename"] = file. -/
def mkAnalyzed (f : Nat) (v : Verdict) : AnalyzedFrame :=
  ⟨f, v.blurry, v.dark, v.low_resolution, v.pixelated⟩

/-- Pipeline step tags used by run_pipeline.py in update_progress calls. -/
inductive Step where
  | INIT
  | SETUP
  | EXTRACT
  | ANALYZE
  | ENHANCE
  | RECONSTRUCT
  | COMPLETE
deriving DecidableEq

/-- One observable event on the progress channel: a PROGRESS update (step tag,
progress percent and, for per-frame ENHANCE updates, the current_frame meta
field), the terminal FAILURE publication carrying the recorded error, or the
terminal SUCCESS publication carrying the output reference. -/
inductive Event where
  | progress (step : Step) (percent : ℚ) (current_frame : Option Nat)
  | failed (msg : String)
  | completed (output_path : String)
deriving DecidableEq

/-- The progress percent carried by an event, when it has one. -/
def Event.percentOf : Event → Option ℚ
  | .progress _ p _ => some p
  | .failed _ => none
  | .completed _ => none

/-- Whether an event is terminal (a SUCCESS or FAILURE publication). -/
def Event.isTerminal : Event → Bool
  | .progress _ _ _ => false
  | .failed _ => true
  | .completed _ => true

/-- is_low_resolution (quality_check.py line 50): width below 1280 or height
below 720. -/
def is_low_resolution (img : Image) : Bool :=
  img.width < 1280 || img.height < 720

/-- Frame-reading loop of extract_frames (video_frame_extraction.py lines
39-55) in the extract_all_frames=True configuration used by run_pipeline.
`reads` is the sequence of cap.read() outcomes: `none` models ret=False, which
breaks the loop; `save_ok` models cv2.imwrite success, and a failed write is
skipped without raising.  Returns the saved_frames counter. -/
def extract_loop (save_ok : Image → Bool) : List (Option Image) → Nat → Nat
  | [], saved => saved
  | none :: _, saved => saved
  | some f :: rest, saved =>
      extract_loop save_ok rest (if save_ok f then saved + 1 else saved)

/-- extract_frames (video_frame_extraction.py lines 8-82): raises exactly when
the capture cannot be opened; otherwise returns the number of saved frames,
zero included. -/
def extract_frames (opened : Bool) (reads : List (Option Image))
    (save_ok : Image → Bool) : Except String Nat :=
  if opened then .ok (extract_loop save_ok reads 0)
  else .error "Failed to open video file"

/-- analyze_video (analyzer.py lines 9-84): fails when the frame directory is
missing or holds no frame files; otherwise every frame whose cv2.imread
returns nothing, or whose classification raises, is dropped with `continue`,
and the survivors keep file order.  `read` models cv2.imread and `classify`
models the get_quality_score call guarded by the per-frame try block. -/
def analyze_video (dir_exists : Bool) (files : List Nat)
    (read : Nat → Option Image) (classify : Image → Except String Verdict) :
    Except String (List AnalyzedFrame) :=
  if dir_exists then
    if files.isEmpty then .error "No frame files found"
    else .ok (files.filterMap (fun f =>
      match read f with
      | none => none
      | some img =>
        match classify img with
        | .error _ => none
        | .ok v => some (mkAnalyzed f v)))
  else .error "Frame directory does not exist"

/-- The good count of the analysis summary computed at analyzer.py line 70:
total minus the four per-flag counts (a Python int, so it may go negative). -/
def analyzer_good_count (results : List AnalyzedFrame) : Int :=
  (results.length : Int) - (results.countP (·.blurry) : Int)
    - (results.countP (·.dark) : Int)
    - (results.countP (·.low_resolution) : Int)
    - (results.countP (·.pixelated) : Int)

/-- The good count reported in run_pipeline's ANALYZE summary event
(run_pipeline.py line 81): total minus the blurry and dark counts. -/
def pipeline_good_count (results : List AnalyzedFrame) : Int :=
  (results.length : Int) - (results.countP (·.blurry) : Int)
    - (results.countP (·.dark) : Int)

/-- Follows the spec's words, for comparison with the two counts above: good
is the complement, the number of frames with all four flags false. -/
def spec_good_count (results : List AnalyzedFrame) : Nat :=
  results.countP (fun r => !(r.blurry || r.dark || r.low_resolution || r.pixelated))

/-- enhance_image (enhancer.py lines 14-81).  `pix` models is_pixelated (an
external numeric heuristic), `upsample` models the RealESRGAN
upsampler.enhance call, `save_ok` models cv2.imwrite success and `load` the
cv2.imread of the input path.  Returns the image written to output_path
together with the flag the function returns: False on the copy path, True
after the model ran.  The model output is clipped to the range 0..255
(np.clip) and written as-is; no resizing happens anywhere in the function. -/
def enhance_image (pix : Image → Bool) (upsample : Image → Except String Image)
    (save_ok : Image → Bool) (load : Option Image) :
    Except String (Image × Bool) :=
  match load with
  | none => .error "Could not load image"
  | some img =>
    if !(is_low_resolution img || pix img) then
      if save_ok img then .ok (img, false)
      else .error "Failed to save image (copy mode)"
    else
      match upsample img with
      | .error e => .error e
      | .ok out =>
        let clipped : Image := ⟨out.width, out.height, out.data.map (fun v => min v 255)⟩
        if save_ok clipped then .ok (clipped, true)
        else .error "Failed to save enhanced image"

/-- Which artifact ends up at the requested output path of reconstruct_video:
the ffmpeg-muxed file, or the renamed video-only temp file. -/
inductive Artifact where
  | muxed
  | videoOnly
deriving DecidableEq

/-- reconstruct_video (reconstructor.py lines 8-129).  `frames` holds the
cv2.imread outcomes of the sorted frame files (`none` is an unreadable frame,
skipped with `continue`, except for the first frame whose read failure is
fatal); `writer_ok` models VideoWriter.isOpened; `original_exists` models the
original_video_path presence check; `mux` models the ffmpeg subprocess run
(`ok rc` a completed process with return code rc, `error` a raised
exception).  Returns the output path, the artifact placed there and the number
of frames written. -/
def reconstruct_video (frames : List (Option Image)) (output_path : String)
    (writer_ok : Bool) (original_exists : Bool) (mux : Except String Int) :
    Except String (String × Artifact × Nat) :=
  match frames with
  | [] => .error "No frame files found"
  | first :: _ =>
    match first with
    | none => .error "Failed to read first frame"
    | some _ =>
      if writer_ok then
        let processed := frames.countP Option.isSome
        if original_exists then
          match mux with
          | .ok rc =>
            if rc = 0 then .ok (output_path, .muxed, processed)
            else .ok (output_path, .videoOnly, processed)
          | .error _ => .ok (output_path, .videoOnly, processed)
        else .ok (output_path, .videoOnly, processed)
      else .error "Failed to initialize video writer"

/-- Which file run_pipeline writes to ml_output/enhanced for a frame: a
shutil.copy of the input frame, or the output of enhance_image on it. -/
inductive FrameOut where
  | copied (i : Nat)
  | enhanced (i : Nat)
deriving DecidableEq

/-- The percent used for the per-frame ENHANCE event at run_pipeline.py line
101: 55 + (i / len(results)) * 30. -/
def pctAt (total i : Nat) : ℚ :=
  55 + ((i : ℚ) / (total : ℚ)) * 30

/-- The per-frame ENHANCE progress event emitted at run_pipeline.py lines
107-112 for the frame at zero-based index i out of `total` analyzed frames;
its current_frame meta field is i + 1. -/
def frameEvent (i total : Nat) : Event :=
  .progress .ENHANCE (pctAt total i) (some (i + 1))

/-- The enhance-or-copy loop of run_pipeline (run_pipeline.py lines 99-118).
`enh` gives the outcome of the enhance_image call for a given frame index (the
pipeline ignores the returned flag); `total` is len(results); `i`, `e`, `c`
are the running index and the enhanced_count / copied_count counters.  Returns
the per-frame events emitted, the output written per frame, and either the
final counters or the first enhancement error, which aborts the loop. -/
def enhanceLoop (enh : Nat → Except String Bool) (total : Nat) :
    List AnalyzedFrame → Nat → Nat → Nat →
    List Event × List FrameOut × Except String (Nat × Nat)
  | [], _, e, c => ([], [], .ok (e, c))
  | r :: rest, i, e, c =>
    if r.blurry || r.dark then
      match enh i with
      | .error msg => ([frameEvent i total], [], .error msg)
      | .ok _ =>
        let x := enhanceLoop enh total rest (i + 1) (e + 1) c
        (frameEvent i total :: x.1, .enhanced i :: x.2.1, x.2.2)
    else
      let x := enhanceLoop enh total rest (i + 1) e (c + 1)
      (x.1, .copied i :: x.2.1, x.2.2)

/-- A stage-level progress event of run_pipeline (no current_frame meta). -/
def pe (s : Step) (p : ℚ) : Event := .progress s p none

/-- run_pipeline (run_pipeline.py lines 29-159): the update_progress events it
emits on the progress channel in order, the outputs written to
ml_output/enhanced, and either the success payload (results, enhanced_count,
copied_count, reconstructed output path) or the error that was raised.  Stage
outcomes are parameters: `extract` is the extract_frames call, `analyze` the
analyze_video call, `enh` the per-frame enhance_image call and `reconstruct`
the reconstruct_video call. -/
def run_pipeline (extract : Except String Nat)
    (analyze : Except String (List AnalyzedFrame))
    (enh : Nat → Except String Bool) (reconstruct : Except String String) :
    List Event × List FrameOut ×
      Except String (List AnalyzedFrame × Nat × Nat × String) :=
  let evs0 := [pe .INIT 0, pe .SETUP 5, pe .SETUP 10, pe .EXTRACT 15]
  match extract with
  | .error e => (evs0, [], .error e)
  | .ok _ =>
    let evs1 := evs0 ++ [pe .EXTRACT 30, pe .ANALYZE 35]
    match analyze with
    | .error e => (evs1, [], .error e)
    | .ok results =>
      let evs2 := evs1 ++ [pe .ANALYZE 50, pe .ANALYZE 50, pe .ENHANCE 55]
      let x := enhanceLoop enh results.length results 0 0 0
      match x.2.2 with
      | .error e => (evs2 ++ x.1, x.2.1, .error e)
      | .ok (ecount, ccount) =>
        let evs3 := evs2 ++ x.1 ++ [pe .ENHANCE 85, pe .RECONSTRUCT 90]
        match reconstruct with
        | .error e => (evs3, x.2.1, .error e)
        | .ok out =>
          (evs3 ++ [pe .RECONSTRUCT 95, pe .COMPLETE 100], x.2.1,
            .ok (results, ecount, ccount, out))

/-- run_pipeline_task (tasks.py lines 15-103): downloads the source
(`download`), runs run_pipeline forwarding its progress events to the Redis
channel, uploads the artifact (`upload`) and publishes exactly one terminal
event: SUCCESS with the output reference, or FAILURE with the error.  Returns
the channel trace and the task outcome, which carries the uploaded output
reference only on success. -/
def run_pipeline_task (download : Except String String)
    (extract : Except String Nat)
    (analyze : Except String (List AnalyzedFrame))
    (enh : Nat → Except String Bool) (reconstruct : Except String String)
    (upload : Except String Unit) : List Event × Except String String :=
  match download with
  | .error e => ([.failed e], .error e)
  | .ok _ =>
    let p := run_pipeline extract analyze enh reconstruct
    match p.2.2 with
    | .error e => (p.1 ++ [.failed e], .error e)
    | .ok _ =>
      match upload with
      | .error e => (p.1 ++ [.failed e], .error e)
      | .ok _ =>
        (p.1 ++ [.completed "enhanced/reconstructed.mp4"],
          .ok "enhanced/reconstructed.mp4")

/-- If an Except value is ok, it is an ok of something. -/
lemma Except.isOk_iff {ε α : Type} {x : Except ε α} :
    x.isOk = true ↔ ∃ a, x = .ok a := by
  cases x <;> simp [Except.isOk, Except.toBool]

/-- Characterization of the enhance-or-copy loop when every enhance_image
call it makes succeeds: one per-frame event per routed frame and none per
copied frame, one output per frame matching the routing predicate, and final
counters counting routed and non-routed frames respectively. -/
lemma enhanceLoop_ok_spec (enh : Nat → Except String Bool) (total : Nat) :
    ∀ (rest : List AnalyzedFrame) (i e c : Nat),
      (∀ j, j < rest.length → (enh (i + j)).isOk = true) →
      enhanceLoop enh total rest i e c =
        ((rest.enumFrom i).filterMap (fun p =>
            if p.2.blurry || p.2.dark then some (frameEvent p.1 total) else none),
         (rest.enumFrom i).map (fun p =>
            if p.2.blurry || p.2.dark then FrameOut.enhanced p.1
            else FrameOut.copied p.1),
         .ok (e + rest.countP (fun r => r.blurry || r.dark),
              c + rest.countP (fun r => !(r.blurry || r.dark)))) := by
  intro rest
  induction rest with
  | nil => intro i e c _; simp [enhanceLoop]
  | cons r rest ih =>
    intro i e c h
    have hok : (enh i).isOk = true := by
      have := h 0 (by simp)
      simpa using this
    have hrest : ∀ j, j < rest.length → (enh (i + 1 + j)).isOk = true := by
      intro j hj
      have := h (j + 1) (by simpa using Nat.succ_lt_succ hj)
      have harith : i + (j + 1) = i + 1 + j := by omega
      simpa [harith] using this
    by_cases hr : (r.blurry || r.dark) = true
    · obtain ⟨b, hb⟩ := Except.isOk_iff.mp hok
      simp only [enhanceLoop, hr, if_true, hb, ih (i + 1) (e + 1) c hrest,
        List.enumFrom_cons, List.filterMap_cons, List.map_cons, List.countP_cons]
      simp [hr]
      omega
    · have hr' : (r.blurry || r.dark) = false := by
        simpa using hr
      simp only [enhanceLoop, hr', Bool.false_eq_true, if_false,
        ih (i + 1) e (c + 1) hrest, List.enumFrom_cons, List.filterMap_cons,
        List.map_cons, List.countP_cons]
      simp [hr']
      omega

/-- The enhance-or-copy loop depends only on the blurry and dark flags of the
frames it is given: the low_resolution and pixelated flags (and the filename)
play no part. -/
lemma enhanceLoop_flags_only (enh : Nat → Except String Bool) (total : Nat) :
    ∀ (l₁ l₂ : List AnalyzedFrame) (i e c : Nat),
      List.Forall₂ (fun r s => r.blurry = s.blurry ∧ r.dark = s.dark) l₁ l₂ →
      enhanceLoop enh total l₁ i e c = enhanceLoop enh total l₂ i e c := by
  intro l₁
  induction l₁ with
  | nil =>
    intro l₂ i e c h
    cases h
    rfl
  | cons r rest ih =>
    intro l₂ i e c h
    cases h with
    | cons hrs hrest =>
      rename_i s rest₂
      obtain ⟨hb, hd⟩ := hrs
      simp only [enhanceLoop, hb, hd]
      by_cases hr : (s.blurry || s.dark) = true
      · simp only [hr, if_true]
        cases henh : enh i with
        | error msg => rfl
        | ok b => simp [ih rest₂ (i + 1) (e + 1) c hrest]
      · have hr' : (s.blurry || s.dark) = false := by simpa using hr
        simp [hr', ih rest₂ (i + 1) e (c + 1) hrest]

/-- Every event the enhance-or-copy loop emits is the per-frame event of some
frame index within the slice it was given. -/
lemma enhanceLoop_trace_shape (enh : Nat → Except String Bool) (total : Nat) :
    ∀ (rest : List AnalyzedFrame) (i e c : Nat),
      ∀ ev ∈ (enhanceLoop enh total rest i e c).1,
        ∃ j, ev = frameEvent j total ∧ i ≤ j ∧ j < i + rest.length := by
  intro rest
  induction rest with
  | nil => intro i e c ev hev; simp [enhanceLoop] at hev
  | cons r rest ih =>
    intro i e c ev hev
    by_cases hr : (r.blurry || r.dark) = true
    · simp only [enhanceLoop, hr, if_true] at hev
      cases henh : enh i with
      | error msg =>
        rw [henh] at hev
        simp only [List.mem_singleton] at hev
        exact ⟨i, hev, le_refl i, by simp⟩
      | ok b =>
        rw [henh] at hev
        simp only [List.mem_cons] at hev
        rcases hev with hev | hev
        · exact ⟨i, hev, le_refl i, by simp⟩
        · obtain ⟨j, hj, hij, hjlt⟩ := ih (i + 1) (e + 1) c ev hev
          exact ⟨j, hj, by omega, by simp; omega⟩
    · have hr' : (r.blurry || r.dark) = false := by simpa using hr
      simp only [enhanceLoop, hr', Bool.false_eq_true, if_false] at hev
      obtain ⟨j, hj, hij, hjlt⟩ := ih (i + 1) e (c + 1) ev hev
      exact ⟨j, hj, by omega, by simp; omega⟩

/-- The per-frame percent is monotone in the frame index. -/
lemma pctAt_mono (total : Nat) {i j : Nat} (h : i ≤ j) :
    pctAt total i ≤ pctAt total j := by
  unfold pctAt
  rcases Nat.eq_zero_or_pos total with h0 | hpos
  · simp [h0]
  · have ht : (0 : ℚ) < (total : ℚ) := by exact_mod_cast hpos
    have hij : (i : ℚ) ≤ (j : ℚ) := by exact_mod_cast h
    have := (div_le_div_iff_of_pos_right ht).mpr hij
    linarith

/-- The per-frame percent never drops below the 55 anchor. -/
lemma pctAt_ge_55 (total i : Nat) : 55 ≤ pctAt total i := by
  unfold pctAt
  have h1 : (0 : ℚ) ≤ (i : ℚ) / (total : ℚ) :=
    div_nonneg (by positivity) (by positivity)
  linarith

/-- For an index below the frame total, the per-frame percent stays at or
below the 85 anchor. -/
lemma pctAt_le_85 (total i : Nat) (h : i < total) : pctAt total i ≤ 85 := by
  unfold pctAt
  have hpos : (0 : ℚ) < (total : ℚ) := by
    exact_mod_cast Nat.lt_of_le_of_lt (Nat.zero_le i) h
  have hle : (i : ℚ) ≤ (total : ℚ) := by exact_mod_cast Nat.le_of_lt h
  have h1 : (i : ℚ) / (total : ℚ) ≤ 1 := (div_le_one hpos).mpr hle
  linarith

/-- At index zero the per-frame percent is exactly 55, whatever the total. -/
lemma pctAt_zero (total : Nat) : pctAt total 0 = 55 := by
  simp [pctAt]

/-- Weaken the head bound of an ascending chain. -/
lemma chain_le_of_le {a b : ℚ} {l : List ℚ} (hab : a ≤ b)
    (h : List.Chain (· ≤ ·) b l) : List.Chain (· ≤ ·) a l := by
  cases h with
  | nil => exact .nil
  | cons hbc hch => exact .cons (le_trans hab hbc) hch

/-- An ascending chain from a bound is an ascending chain. -/
lemma chain'_of_chain {a : ℚ} {l : List ℚ}
    (h : List.Chain (· ≤ ·) a l) : List.Chain' (· ≤ ·) l := by
  cases l with
  | nil => simp
  | cons b t =>
    cases h with
    | cons hab hch => exact hch

/-- Append a new maximum to an ascending chain. -/
lemma chain_snoc_of_le {a b : ℚ} {l : List ℚ} (h : List.Chain (· ≤ ·) a l)
    (hab : a ≤ b) (hall : ∀ p ∈ l, p ≤ b) :
    List.Chain (· ≤ ·) a (l ++ [b]) := by
  induction l generalizing a with
  | nil => exact .cons hab .nil
  | cons x t ih =>
    cases h with
    | cons hax hch =>
      exact .cons hax (ih hch (hall x (by simp)) (fun p hp => hall p (by simp [hp])))

/-- The percents of the events the enhance-or-copy loop emits form an
ascending chain bounded below by the percent of the loop's starting index. -/
lemma enhanceLoop_percents_chain (enh : Nat → Except String Bool) (total : Nat) :
    ∀ (rest : List AnalyzedFrame) (i e c : Nat),
      List.Chain (· ≤ ·) (pctAt total i)
        ((enhanceLoop enh total rest i e c).1.filterMap Event.percentOf) := by
  intro rest
  induction rest with
  | nil => intro i e c; simp [enhanceLoop]
  | cons r rest ih =>
    intro i e c
    by_cases hr : (r.blurry || r.dark) = true
    · simp only [enhanceLoop, hr, if_true]
      cases henh : enh i with
      | error msg =>
        simp [frameEvent, Event.percentOf]
      | ok b =>
        simp only [List.filterMap_cons, frameEvent, Event.percentOf]
        exact .cons (le_refl _)
          (chain_le_of_le (pctAt_mono total (Nat.le_succ i)) (ih (i + 1) (e + 1) c))
    · have hr' : (r.blurry || r.dark) = false := by simpa using hr
      simp only [enhanceLoop, hr', Bool.false_eq_true, if_false]
      exact chain_le_of_le (pctAt_mono total (Nat.le_succ i)) (ih (i + 1) e (c + 1))

/-- Every percent the enhance-or-copy loop emits is at most 85, provided the
loop is run over a slice that fits inside the frame total (as run_pipeline
does, starting at index 0 with total = len(results)). -/
lemma enhanceLoop_percents_le_85 (enh : Nat → Except String Bool) (total : Nat)
    (rest : List AnalyzedFrame) (i e c : Nat) (h : i + rest.length ≤ total) :
    ∀ p ∈ (enhanceLoop enh total rest i e c).1.filterMap Event.percentOf,
      p ≤ 85 := by
  intro p hp
  obtain ⟨ev, hev, hpev⟩ := List.mem_filterMap.mp hp
  obtain ⟨j, rfl, hij, hjlt⟩ := enhanceLoop_trace_shape enh total rest i e c ev hev
  simp only [frameEvent, Event.percentOf, Option.some.injEq] at hpev
  exact hpev ▸ pctAt_le_85 total j (by omega)

/-- The enhance-or-copy loop emits no terminal event. -/
lemma enhanceLoop_no_terminal (enh : Nat → Except String Bool) (total : Nat)
    (rest : List AnalyzedFrame) (i e c : Nat) :
    (enhanceLoop enh total rest i e c).1.countP Event.isTerminal = 0 := by
  rw [List.countP_eq_zero]
  intro ev hev
  obtain ⟨j, rfl, _, _⟩ := enhanceLoop_trace_shape enh total rest i e c ev hev
  simp [frameEvent, Event.isTerminal]

/-- When the enhance_image call fails on the routed frame after `pre` (all
earlier calls succeeding), the loop stops there: it returns that error, emits
no event beyond the failing frame's own, and writes no output at or beyond
the failing frame. -/
lemma enhanceLoop_error_spec (enh : Nat → Except String Bool) (total : Nat)
    (msg : String) :
    ∀ (pre : List AnalyzedFrame) (r : AnalyzedFrame)
      (post : List AnalyzedFrame) (i e c : Nat),
      (r.blurry || r.dark) = true →
      enh (i + pre.length) = .error msg →
      (∀ j, j < i + pre.length → (enh j).isOk = true) →
      (enhanceLoop enh total (pre ++ r :: post) i e c).2.2 = .error msg
      ∧ (∀ ev ∈ (enhanceLoop enh total (pre ++ r :: post) i e c).1,
          ∃ j, j ≤ i + pre.length ∧ ev = frameEvent j total)
      ∧ (∀ fo ∈ (enhanceLoop enh total (pre ++ r :: post) i e c).2.1,
          ∃ j, j < i + pre.length
            ∧ (fo = FrameOut.copied j ∨ fo = FrameOut.enhanced j)) := by
  intro pre
  induction pre with
  | nil =>
    intro r post i e c hr herr _
    simp only [List.nil_append, List.length_nil, Nat.add_zero] at herr ⊢
    simp only [enhanceLoop, hr, if_true, herr]
    refine ⟨trivial, ?_, ?_⟩
    · intro ev hev
      simp only [List.mem_singleton] at hev
      exact ⟨i, le_refl i, hev⟩
    · intro fo hfo
      simp at hfo
  | cons q pre ih =>
    intro r post i e c hr herr hok
    have hqok : (enh i).isOk = true := hok i (by simp)
    have herr' : enh ((i + 1) + pre.length) = .error msg := by
      have : i + (q :: pre).length = (i + 1) + pre.length := by simp; omega
      rwa [this] at herr
    have hok' : ∀ j, j < (i + 1) + pre.length → (enh j).isOk = true := by
      intro j hj
      exact hok j (by simp at hj ⊢; omega)
    have hlen : i + (q :: pre).length = (i + 1) + pre.length := by simp; omega
    by_cases hq : (q.blurry || q.dark) = true
    · obtain ⟨b, hb⟩ := Except.isOk_iff.mp hqok
      obtain ⟨h1, h2, h3⟩ := ih r post (i + 1) (e + 1) c hr herr' hok'
      simp only [List.cons_append, enhanceLoop, hq, if_true, hb]
      refine ⟨h1, ?_, ?_⟩
      · intro ev hev
        simp only [List.mem_cons] at hev
        rcases hev with rfl | hev
        · exact ⟨i, by simp only [List.length_cons]; omega, rfl⟩
        · obtain ⟨j, hj, rfl⟩ := h2 ev hev
          exact ⟨j, by simp only [List.length_cons]; omega, rfl⟩
      · intro fo hfo
        simp only [List.mem_cons] at hfo
        rcases hfo with rfl | hfo
        · exact ⟨i, by simp only [List.length_cons]; omega, Or.inr rfl⟩
        · obtain ⟨j, hj, hfo'⟩ := h3 fo hfo
          exact ⟨j, by simp only [List.length_cons]; omega, hfo'⟩
    · have hq' : (q.blurry || q.dark) = false := by simpa using hq
      obtain ⟨h1, h2, h3⟩ := ih r post (i + 1) e (c + 1) hr herr' hok'
      simp only [List.cons_append, enhanceLoop, hq', Bool.false_eq_true, if_false]
      refine ⟨h1, ?_, ?_⟩
      · intro ev hev
        obtain ⟨j, hj, rfl⟩ := h2 ev hev
        exact ⟨j, by simp only [List.length_cons]; omega, rfl⟩
      · intro fo hfo
        simp only [List.mem_cons] at hfo
        rcases hfo with rfl | hfo
        · exact ⟨i, by simp only [List.length_cons]; omega, Or.inl rfl⟩
        · obtain ⟨j, hj, hfo'⟩ := h3 fo hfo
          exact ⟨j, by simp only [List.length_cons]; omega, hfo'⟩

/-- C1: in the Route-and-Enhance loop of run_pipeline a frame is routed to
the Enhancement Adapter if and only if its verdict has blurry or dark set:
with every enhancement call succeeding, the output written for the frame at
index i is the enhanced file exactly when blurry or dark holds and the
unchanged copy otherwise, the final counters count exactly the routed and the
non-routed frames, and the low_resolution and pixelated flags play no part in
the routing decision: any frame list agreeing on blurry and dark yields the
identical loop outcome. -/
theorem c1_routing_checks_blurry_or_dark_only
    (enh : Nat → Except String Bool) (total : Nat)
    (results results₂ : List AnalyzedFrame)
    (hok : ∀ j, (enh j).isOk = true)
    (hagree : List.Forall₂ (fun r s => r.blurry = s.blurry ∧ r.dark = s.dark)
      results results₂) :
    (enhanceLoop enh total results 0 0 0).2.1
      = results.enum.map (fun p =>
          if p.2.blurry || p.2.dark then FrameOut.enhanced p.1
          else FrameOut.copied p.1)
    ∧ (enhanceLoop enh total results 0 0 0).2.2
      = .ok (results.countP (fun r => r.blurry || r.dark),
             results.countP (fun r => !(r.blurry || r.dark)))
    ∧ enhanceLoop enh total results 0 0 0
        = enhanceLoop enh total results₂ 0 0 0 := by
  have h := enhanceLoop_ok_spec enh total results 0 0 0 (fun j _ => hok (0 + j))
  refine ⟨?_, ?_, ?_⟩
  · simp [h, List.enum]
  · simp [h]
  · exact enhanceLoop_flags_only enh total results results₂ 0 0 0 hagree

/-- C1 witness: on a two-frame run where frame 0 is flagged low_resolution
and pixelated only and frame 1 is blurry, frame 0 is copied and frame 1 is
enhanced, with counters (1, 1). -/
theorem c1_routing_checks_blurry_or_dark_only_witness :
    (enhanceLoop (fun _ => .ok true) 2
        [⟨0, false, false, true, true⟩, ⟨1, true, false, false, false⟩] 0 0 0).2.1
      = [FrameOut.copied 0, FrameOut.enhanced 1]
    ∧ (enhanceLoop (fun _ => .ok true) 2
        [⟨0, false, false, true, true⟩, ⟨1, true, false, false, false⟩] 0 0 0).2.2
      = .ok (1, 1) := by
  obtain ⟨h1, h2, _⟩ := c1_routing_checks_blurry_or_dark_only
    (fun _ => .ok true) 2
    [⟨0, false, false, true, true⟩, ⟨1, true, false, false, false⟩]
    [⟨0, false, false, true, true⟩, ⟨1, true, false, false, false⟩]
    (fun _ => rfl)
    (.cons ⟨rfl, rfl⟩ (.cons ⟨rfl, rfl⟩ .nil))
  exact ⟨h1.trans (by decide), h2.trans (by rfl)⟩

/-- C4 counterexample: a routed low-resolution frame is sent to the model and
the model's doubled-dimension output is accepted as written: the output's
width is 200 while the input's is 100, refuting the claim that an output
whose dimensions differ from the input's is resized back before acceptance. -/
theorem c4_no_resize_counterexample :
    enhance_image (fun _ => false)
        (fun im => .ok ⟨2 * im.width, 2 * im.height, im.data⟩)
        (fun _ => true) (some ⟨100, 100, [7]⟩)
      = .ok (⟨200, 200, [7]⟩, true)
    ∧ (200 : Nat) ≠ 100 := by
  exact ⟨rfl, by decide⟩

/-- C4 amended: enhance_image performs no resize back to the input's
dimensions: the copy path writes the input unchanged (so dimensions match
there), while the model path accepts the upsampler's output as-is, keeping
the upsampler's own width and height after only a pixel-value clip. -/
theorem c4_amended_no_resize_back
    (pix : Image → Bool) (upsample : Image → Except String Image)
    (save_ok : Image → Bool) (img out : Image) (b : Bool)
    (h : enhance_image pix upsample save_ok (some img) = .ok (out, b)) :
    (b = false → out = img)
    ∧ (b = true → ∃ raw, upsample img = .ok raw
        ∧ out = ⟨raw.width, raw.height, raw.data.map (fun v => min v 255)⟩) := by
  cases hc : (is_low_resolution img || pix img) with
  | false =>
    simp only [enhance_image, hc, Bool.not_false, if_true] at h
    cases hs : save_ok img with
    | false =>
      simp only [hs, Bool.false_eq_true, if_false] at h
      exact Except.noConfusion h
    | true =>
      simp only [hs, if_true, Except.ok.injEq, Prod.mk.injEq] at h
      obtain ⟨rfl, rfl⟩ := h
      exact ⟨fun _ => rfl, fun hfalse => by simp at hfalse⟩
  | true =>
    simp only [enhance_image, hc, Bool.not_true, Bool.false_eq_true, if_false] at h
    cases hup : upsample img with
    | error e =>
      simp only [hup] at h
      exact Except.noConfusion h
    | ok raw =>
      simp only [hup] at h
      cases hs : save_ok ⟨raw.width, raw.height, raw.data.map (fun v => min v 255)⟩ with
      | false =>
        simp only [hs, Bool.false_eq_true, if_false] at h
        exact Except.noConfusion h
      | true =>
        simp only [hs, if_true, Except.ok.injEq, Prod.mk.injEq] at h
        obtain ⟨rfl, rfl⟩ := h
        exact ⟨fun htrue => by simp at htrue, fun _ => ⟨raw, rfl, rfl⟩⟩

/-- C4 amended witness: on a 100-by-100 input with a dimension-doubling
upsampler, the accepted output keeps the upsampler's 200-by-200 geometry. -/
theorem c4_amended_no_resize_back_witness :
    ((true : Bool) = false → (⟨200, 200, [7]⟩ : Image) = ⟨100, 100, [7]⟩)
    ∧ ((true : Bool) = true → ∃ raw,
        (fun im => (.ok ⟨2 * im.width, 2 * im.height, im.data⟩ :
            Except String Image)) (⟨100, 100, [7]⟩ : Image) = .ok raw
        ∧ (⟨200, 200, [7]⟩ : Image)
            = ⟨raw.width, raw.height, raw.data.map (fun v => min v 255)⟩) :=
  c4_amended_no_resize_back (fun _ => false)
    (fun im => .ok ⟨2 * im.width, 2 * im.height, im.data⟩)
    (fun _ => true) ⟨100, 100, [7]⟩ ⟨200, 200, [7]⟩ true rfl

/-- C5: the reported good count is computed by subtracting per-flag counts
from the total, so a frame with several flags set is subtracted once per flag
and the count can go negative, contradicting the complement definition stated
in the code's own comment directly above (analyzer.py line 69): on a
one-frame result flagged blurry and dark, the analyzer summary and the
pipeline summary both report -1 where the complement count is 0. -/
theorem c5_good_count_overlap_bug :
    analyzer_good_count [⟨0, true, true, false, false⟩] = -1
    ∧ pipeline_good_count [⟨0, true, true, false, false⟩] = -1
    ∧ spec_good_count [⟨0, true, true, false, false⟩] = 0
    ∧ analyzer_good_count [⟨0, true, true, false, false⟩]
        ≠ (spec_good_count [⟨0, true, true, false, false⟩] : Int) := by
  exact ⟨by decide, by decide, by decide, by decide⟩

/-- C6: during enhance-or-copy, exactly one per-frame progress event is
emitted per frame routed to enhancement and none per copied frame, and the
event for the frame at overall index i out of the total analyzed frames
carries percent 55 + (i / total) * 30 and current_frame i + 1. -/
theorem c6_per_frame_event_percents
    (enh : Nat → Except String Bool) (results : List AnalyzedFrame)
    (hok : ∀ j, (enh j).isOk = true) :
    (enhanceLoop enh results.length results 0 0 0).1
      = results.enum.filterMap (fun p =>
          if p.2.blurry || p.2.dark then
            some (.progress .ENHANCE
              (55 + ((p.1 : ℚ) / (results.length : ℚ)) * 30) (some (p.1 + 1)))
          else none) := by
  have h := enhanceLoop_ok_spec enh results.length results 0 0 0
    (fun j _ => hok (0 + j))
  simp [h, List.enum, frameEvent, pctAt]

/-- C6 witness: on three frames of which the first and third are routed, the
loop emits exactly two events, at percents 55 and 75 with current_frame 1 and
3, and none for the copied middle frame. -/
theorem c6_per_frame_event_percents_witness :
    (enhanceLoop (fun _ => .ok true) 3
        [⟨0, true, false, false, false⟩, ⟨1, false, false, true, false⟩,
         ⟨2, false, true, false, false⟩] 0 0 0).1
      = [.progress .ENHANCE 55 (some 1), .progress .ENHANCE 75 (some 3)] := by
  have h := c6_per_frame_event_percents (fun _ => .ok true)
    [⟨0, true, false, false, false⟩, ⟨1, false, false, true, false⟩,
     ⟨2, false, true, false, false⟩] (fun _ => rfl)
  refine h.trans ?_
  simp only [List.enum, List.enumFrom_cons, List.enumFrom_nil,
    List.filterMap_cons, List.filterMap_nil]
  norm_num

/-- C7 counterexample: with the source opened but the first read failing,
extract_frames returns ok 0 instead of raising a NoFramesExtracted error, and
the decodable frame after the failed read is never saved: the failed read
ends the loop rather than being skipped. -/
theorem c7_zero_frames_no_error_counterexample :
    extract_frames true [none, some ⟨100, 100, [7]⟩] (fun _ => true) = .ok 0
    ∧ (extract_frames true [none, some ⟨100, 100, [7]⟩] (fun _ => true)).isOk
        = true := by
  exact ⟨rfl, rfl⟩

/-- C7 amended: extract_frames raises exactly when the source cannot be
opened; otherwise it returns, without error, the number of successfully
written frames among the reads before the first failed read (a failed read
ends extraction, and only failed frame writes are skipped), even when that
number is zero. -/
theorem c7_amended_extract_contract (opened : Bool)
    (reads : List (Option Image)) (save_ok : Image → Bool) :
    (opened = false →
      extract_frames opened reads save_ok = .error "Failed to open video file")
    ∧ (opened = true →
      extract_frames opened reads save_ok
        = .ok (((reads.takeWhile Option.isSome).filterMap id).countP save_ok)) := by
  constructor
  · intro h
    simp [extract_frames, h]
  · intro h
    simp only [extract_frames, h, if_true, Except.ok.injEq]
    have key : ∀ (l : List (Option Image)) (s : Nat),
        extract_loop save_ok l s
          = s + ((l.takeWhile Option.isSome).filterMap id).countP save_ok := by
      intro l
      induction l with
      | nil => intro s; simp [extract_loop]
      | cons o rest ih =>
        intro s
        cases o with
        | none => simp [extract_loop, List.takeWhile_cons]
        | some f =>
          simp only [extract_loop, List.takeWhile_cons, Option.isSome_some,
            if_true, List.filterMap_cons, id, List.countP_cons, ih]
          cases hs : save_ok f <;> simp [hs] <;> omega
    simpa using key reads 0

/-- C7 amended witness: an opened source whose reads are one decodable frame
followed by a failed read and another decodable frame yields ok 1. -/
theorem c7_amended_extract_contract_witness :
    extract_frames true [some ⟨1, 1, [0]⟩, none, some ⟨2, 2, [0]⟩]
        (fun _ => true)
      = .ok 1 := by
  have h := (c7_amended_extract_contract true
    [some ⟨1, 1, [0]⟩, none, some ⟨2, 2, [0]⟩] (fun _ => true)).2 rfl
  exact h.trans (by rfl)

/-- C10: a frame routed by the blurry-or-dark predicate whose image is
neither low-resolution nor pixelated is written to the output unchanged with
the model never invoked (the outcome does not depend on the upsampler) and
enhance_image returns false, yet the pipeline loop still takes the enhanced
branch for it, incrementing enhanced_count: enhanced_count counts routed
frames, not frames the model transformed. -/
theorem c10_enhanced_count_counts_routed_frames
    (pix : Image → Bool) (upsample upsample₂ : Image → Except String Image)
    (save_ok : Image → Bool) (img : Image)
    (enh : Nat → Except String Bool) (total i e c : Nat)
    (r : AnalyzedFrame) (rest : List AnalyzedFrame)
    (hlr : is_low_resolution img = false) (hpx : pix img = false)
    (hsv : save_ok img = true)
    (hroute : (r.blurry || r.dark) = true) (henh : enh i = .ok false) :
    enhance_image pix upsample save_ok (some img) = .ok (img, false)
    ∧ enhance_image pix upsample save_ok (some img)
        = enhance_image pix upsample₂ save_ok (some img)
    ∧ enhanceLoop enh total (r :: rest) i e c
        = (frameEvent i total :: (enhanceLoop enh total rest (i + 1) (e + 1) c).1,
           FrameOut.enhanced i
             :: (enhanceLoop enh total rest (i + 1) (e + 1) c).2.1,
           (enhanceLoop enh total rest (i + 1) (e + 1) c).2.2) := by
  refine ⟨?_, ?_, ?_⟩
  · simp [enhance_image, hlr, hpx, hsv]
  · simp [enhance_image, hlr, hpx, hsv]
  · simp [enhanceLoop, hroute, henh]

/-- C10 witness: a blurry frame whose 1920-by-1080 image is neither
low-resolution nor pixelated is copied by enhance_image with result false,
yet the loop yields enhanced_count 1 and copied_count 0 for it. -/
theorem c10_enhanced_count_counts_routed_frames_witness :
    enhance_image (fun _ => false)
        (fun im => .ok ⟨2 * im.width, 2 * im.height, im.data⟩)
        (fun _ => true) (some ⟨1920, 1080, [7]⟩)
      = .ok (⟨1920, 1080, [7]⟩, false)
    ∧ enhanceLoop (fun _ => .ok false) 1 [⟨0, true, false, false, false⟩] 0 0 0
        = ([frameEvent 0 1], [FrameOut.enhanced 0], .ok (1, 0)) := by
  obtain ⟨h1, _, h3⟩ := c10_enhanced_count_counts_routed_frames
    (fun _ => false) (fun im => .ok ⟨2 * im.width, 2 * im.height, im.data⟩)
    (fun im => .ok im) (fun _ => true) ⟨1920, 1080, [7]⟩
    (fun _ => .ok false) 1 0 0 0 ⟨0, true, false, false, false⟩ []
    rfl rfl rfl rfl rfl
  exact ⟨h1, h3.trans (by rfl)⟩

/-- A boolean predicate's count and its negation's count sum to the length. -/
lemma countP_add_countP_not {α : Type} (p : α → Bool) (l : List α) :
    l.countP p + l.countP (fun a => !(p a)) = l.length := by
  induction l with
  | nil => rfl
  | cons a t ih =>
    simp only [List.countP_cons, List.length_cons]
    cases hp : p a <;> simp [hp] <;> omega

/-- Shape of a fully successful run_pipeline call: the opening stage events,
then the loop's per-frame events, then the closing stage events ending in the
100-percent COMPLETE event, with the ok outcome carrying the counters. -/
lemma run_pipeline_ok_eq (n : Nat) (results : List AnalyzedFrame)
    (enh : Nat → Except String Bool) (outp : String) (ec cc : Nat)
    (h22 : (enhanceLoop enh results.length results 0 0 0).2.2 = .ok (ec, cc)) :
    run_pipeline (.ok n) (.ok results) enh (.ok outp)
      = ([pe .INIT 0, pe .SETUP 5, pe .SETUP 10, pe .EXTRACT 15, pe .EXTRACT 30,
          pe .ANALYZE 35, pe .ANALYZE 50, pe .ANALYZE 50, pe .ENHANCE 55]
          ++ ((enhanceLoop enh results.length results 0 0 0).1
          ++ [pe .ENHANCE 85, pe .RECONSTRUCT 90, pe .RECONSTRUCT 95,
              pe .COMPLETE 100]),
         (enhanceLoop enh results.length results 0 0 0).2.1,
         .ok (results, ec, cc, outp)) := by
  simp only [run_pipeline]
  rw [h22]
  simp

/-- C2: when the enhance_image call raises on a routed frame (every earlier
call succeeding), the pipeline halts at that frame: the loop error is the
pipeline's outcome, the run is independent of the reconstruct stage outcome
(Reconstruct is never invoked), no emitted event is terminal or concerns a
frame past the failing one, no output is written at or past the failing
frame, and the task ends Failed with that error recorded as its final event,
with no SUCCESS publication carrying an artifact reference ever emitted. -/
theorem c2_enhancement_failure_aborts_job
    (n : Nat) (pre post : List AnalyzedFrame) (r : AnalyzedFrame)
    (enh : Nat → Except String Bool) (rec rec₂ : Except String String)
    (src : String) (upload : Except String Unit) (msg : String)
    (hroute : (r.blurry || r.dark) = true)
    (herr : enh pre.length = .error msg)
    (hok : ∀ j, j < pre.length → (enh j).isOk = true) :
    (run_pipeline (.ok n) (.ok (pre ++ r :: post)) enh rec).2.2 = .error msg
    ∧ run_pipeline (.ok n) (.ok (pre ++ r :: post)) enh rec
        = run_pipeline (.ok n) (.ok (pre ++ r :: post)) enh rec₂
    ∧ (∀ ev ∈ (run_pipeline (.ok n) (.ok (pre ++ r :: post)) enh rec).1,
        Event.isTerminal ev = false
        ∧ ∀ s p j, ev = .progress s p (some j) → j ≤ pre.length + 1)
    ∧ (∀ fo ∈ (run_pipeline (.ok n) (.ok (pre ++ r :: post)) enh rec).2.1,
        ∃ j, j < pre.length ∧ (fo = FrameOut.copied j ∨ fo = FrameOut.enhanced j))
    ∧ (run_pipeline_task (.ok src) (.ok n) (.ok (pre ++ r :: post)) enh rec
        upload).2 = .error msg
    ∧ (run_pipeline_task (.ok src) (.ok n) (.ok (pre ++ r :: post)) enh rec
        upload).1.getLast? = some (.failed msg)
    ∧ ∀ o, Event.completed o
        ∉ (run_pipeline_task (.ok src) (.ok n) (.ok (pre ++ r :: post)) enh rec
            upload).1 := by
  have herr0 : enh (0 + pre.length) = .error msg := by simpa using herr
  have hok0 : ∀ j, j < 0 + pre.length → (enh j).isOk = true := by
    intro j hj
    exact hok j (by omega)
  obtain ⟨h1, h2, h3⟩ := enhanceLoop_error_spec enh (pre ++ r :: post).length msg
    pre r post 0 0 0 hroute herr0 hok0
  have hpipe : run_pipeline (.ok n) (.ok (pre ++ r :: post)) enh rec
      = ([pe .INIT 0, pe .SETUP 5, pe .SETUP 10, pe .EXTRACT 15, pe .EXTRACT 30,
          pe .ANALYZE 35, pe .ANALYZE 50, pe .ANALYZE 50, pe .ENHANCE 55]
            ++ (enhanceLoop enh (pre ++ r :: post).length (pre ++ r :: post)
                  0 0 0).1,
         (enhanceLoop enh (pre ++ r :: post).length (pre ++ r :: post) 0 0 0).2.1,
         .error msg) := by
    simp only [run_pipeline]
    rw [h1]
    simp
  have hpipe₂ : run_pipeline (.ok n) (.ok (pre ++ r :: post)) enh rec₂
      = ([pe .INIT 0, pe .SETUP 5, pe .SETUP 10, pe .EXTRACT 15, pe .EXTRACT 30,
          pe .ANALYZE 35, pe .ANALYZE 50, pe .ANALYZE 50, pe .ENHANCE 55]
            ++ (enhanceLoop enh (pre ++ r :: post).length (pre ++ r :: post)
                  0 0 0).1,
         (enhanceLoop enh (pre ++ r :: post).length (pre ++ r :: post) 0 0 0).2.1,
         .error msg) := by
    simp only [run_pipeline]
    rw [h1]
    simp
  have hev : ∀ ev ∈ (run_pipeline (.ok n) (.ok (pre ++ r :: post)) enh rec).1,
      Event.isTerminal ev = false
      ∧ ∀ s p j, ev = .progress s p (some j) → j ≤ pre.length + 1 := by
    intro ev hev
    rw [hpipe] at hev
    simp only [List.mem_append, List.mem_cons, List.not_mem_nil, or_false] at hev
    rcases hev with hl | hr'
    · rcases hl with rfl | rfl | rfl | rfl | rfl | rfl | rfl | rfl | rfl <;>
        exact ⟨rfl, fun s p j heq => by simp [pe] at heq⟩
    · obtain ⟨j, hj, rfl⟩ := h2 ev hr'
      refine ⟨rfl, fun s p j' heq => ?_⟩
      simp only [frameEvent, Event.progress.injEq, Option.some.injEq] at heq
      obtain ⟨-, -, hj'⟩ := heq
      omega
  refine ⟨by rw [hpipe], by rw [hpipe, hpipe₂], hev, ?_, ?_, ?_, ?_⟩
  · intro fo hfo
    rw [hpipe] at hfo
    obtain ⟨j, hj, hor⟩ := h3 fo hfo
    exact ⟨j, by omega, hor⟩
  · simp only [run_pipeline_task, hpipe]
  · simp only [run_pipeline_task, hpipe]
    exact List.getLast?_concat _
  · intro o ho
    simp only [run_pipeline_task, hpipe] at ho
    rw [List.mem_append] at ho
    rcases ho with ho | ho
    · obtain ⟨hterm, -⟩ := hev (Event.completed o) (by rw [hpipe]; exact ho)
      simp [Event.isTerminal] at hterm
    · simp at ho

/-- C2 witness: a one-frame run whose only frame is dark and whose enhancer
raises ends with the error as outcome and a final FAILURE event. -/
theorem c2_enhancement_failure_aborts_job_witness :
    (run_pipeline (.ok 1) (.ok [⟨0, false, true, false, false⟩])
        (fun _ => .error "CUDA out of memory") (.ok "out.mp4")).2.2
      = .error "CUDA out of memory"
    ∧ (run_pipeline_task (.ok "bucket/key") (.ok 1)
        (.ok [⟨0, false, true, false, false⟩])
        (fun _ => .error "CUDA out of memory") (.ok "out.mp4") (.ok ())).1.getLast?
      = some (.failed "CUDA out of memory") := by
  obtain ⟨h1, -, -, -, -, h6, -⟩ := c2_enhancement_failure_aborts_job
    1 [] [] ⟨0, false, true, false, false⟩
    (fun _ => .error "CUDA out of memory") (.ok "out.mp4") (.ok "out.mp4")
    "bucket/key" (.ok ()) "CUDA out of memory"
    rfl rfl (fun j hj => by simp at hj)
  exact ⟨h1, h6⟩

/-- C8 counterexample: with the frame directory present and one readable
frame whose classification fails, analyze_video returns ok with an empty
result set instead of raising a NoFramesAnalyzed error. -/
theorem c8_all_classifications_fail_no_error_counterexample :
    analyze_video true [0] (fun _ => some ⟨100, 100, [7]⟩)
        (fun _ => .error "classifier crashed") = .ok []
    ∧ (analyze_video true [0] (fun _ => some ⟨100, 100, [7]⟩)
        (fun _ => .error "classifier crashed")).isOk = true := by
  exact ⟨rfl, rfl⟩

/-- C8 amended: analyze_video drops, without propagating, every frame whose
read or classification fails; it errors exactly when the frame directory is
missing or holds no frame files (so an all-failing classification yields an
empty ok result, not an error); and the downstream enhance-or-copy stage
operates on exactly the surviving frames, the final summary carrying the
survivors and counters that sum to the survivors' count. -/
theorem c8_amended_analyze_drops_and_downstream_uses_survivors
    (files : List Nat) (read : Nat → Option Image)
    (classify : Image → Except String Verdict)
    (enh : Nat → Except String Bool) (n : Nat) (outp : String)
    (hok : ∀ j, (enh j).isOk = true) :
    (∀ de : Bool, (analyze_video de files read classify).isOk = false
        ↔ (de = false ∨ files.isEmpty = true))
    ∧ (∀ results, analyze_video true files read classify = .ok results →
        results = files.filterMap (fun f =>
          match read f with
          | none => none
          | some img =>
            match classify img with
            | .error _ => none
            | .ok v => some (mkAnalyzed f v))
        ∧ (run_pipeline (.ok n) (.ok results) enh (.ok outp)).2.2
            = .ok (results,
                   results.countP (fun r => r.blurry || r.dark),
                   results.countP (fun r => !(r.blurry || r.dark)), outp)
        ∧ results.countP (fun r => r.blurry || r.dark)
            + results.countP (fun r => !(r.blurry || r.dark))
            = results.length) := by
  constructor
  · intro de
    cases de with
    | false => simp [analyze_video, Except.isOk, Except.toBool]
    | true =>
      cases hf : files.isEmpty with
      | false => simp [analyze_video, hf, Except.isOk, Except.toBool]
      | true => simp [analyze_video, hf, Except.isOk, Except.toBool]
  · intro results h
    have hres : results = files.filterMap (fun f =>
        match read f with
        | none => none
        | some img =>
          match classify img with
          | .error _ => none
          | .ok v => some (mkAnalyzed f v)) := by
      simp only [analyze_video, if_true] at h
      cases hf : files.isEmpty with
      | true => rw [hf] at h; simp at h
      | false =>
        rw [hf] at h
        simp only [Bool.false_eq_true, if_false, Except.ok.injEq] at h
        exact h.symm
    have hloop := enhanceLoop_ok_spec enh results.length results 0 0 0
      (fun j _ => hok (0 + j))
    refine ⟨hres, ?_, countP_add_countP_not (fun r => r.blurry || r.dark) results⟩
    simp only [run_pipeline]
    rw [hloop]
    simp

/-- C8 amended witness: on files 0, 1, 2 where file 1 is unreadable and file
2's classification fails, the survivors are exactly file 0's frame and the
pipeline outcome carries them with counters summing to 1. -/
theorem c8_amended_analyze_drops_and_downstream_uses_survivors_witness :
    analyze_video true [0, 1, 2]
          (fun f => if f = 1 then none else some ⟨100, 100, [f]⟩)
          (fun im => if im.data = [2] then .error "boom"
            else .ok ⟨true, false, false, false⟩)
        = .ok [⟨0, true, false, false, false⟩]
      ∧ (run_pipeline (.ok 3) (.ok [⟨0, true, false, false, false⟩])
          (fun _ => .ok true) (.ok "ml_output/reconstructed.mp4")).2.2
        = .ok ([⟨0, true, false, false, false⟩], 1, 0,
               "ml_output/reconstructed.mp4") := by
  obtain ⟨-, h2⟩ := c8_amended_analyze_drops_and_downstream_uses_survivors
    [0, 1, 2] (fun f => if f = 1 then none else some ⟨100, 100, [f]⟩)
    (fun im => if im.data = [2] then .error "boom"
      else .ok ⟨true, false, false, false⟩)
    (fun _ => .ok true) 3 "ml_output/reconstructed.mp4" (fun _ => rfl)
  obtain ⟨-, hrun, -⟩ := h2 [⟨0, true, false, false, false⟩] (by rfl)
  exact ⟨by rfl, hrun⟩

/-- C9: when frame-writing succeeds (a non-empty frame list with a readable
first frame and an opened writer) but the ffmpeg audio mux fails, whether by
raising or by a nonzero return code, reconstruct_video still returns ok with
the video-only artifact renamed to the requested output path; and with the
reconstruct stage returning ok, the pipeline run completes: the run's outcome
is ok, its final event is the 100-percent COMPLETE event, and the task ends
Completed with the artifact reference rather than Failed. -/
theorem c9_mux_failure_video_only_fallback
    (first : Image) (rest : List (Option Image)) (outp src : String)
    (mux : Except String Int) (results : List AnalyzedFrame)
    (enh : Nat → Except String Bool) (n : Nat)
    (hmux : (∃ e, mux = .error e) ∨ ∃ rc, mux = .ok rc ∧ rc ≠ 0)
    (hok : ∀ j, (enh j).isOk = true) :
    reconstruct_video (some first :: rest) outp true true mux
      = .ok (outp, Artifact.videoOnly, (some first :: rest).countP Option.isSome)
    ∧ (run_pipeline (.ok n) (.ok results) enh (.ok outp)).2.2
        = .ok (results, results.countP (fun r => r.blurry || r.dark),
               results.countP (fun r => !(r.blurry || r.dark)), outp)
    ∧ (run_pipeline (.ok n) (.ok results) enh (.ok outp)).1.getLast?
        = some (pe .COMPLETE 100)
    ∧ (run_pipeline_task (.ok src) (.ok n) (.ok results) enh (.ok outp)
        (.ok ())).2 = .ok "enhanced/reconstructed.mp4" := by
  have hloop := enhanceLoop_ok_spec enh results.length results 0 0 0
    (fun j _ => hok (0 + j))
  have h22 : (enhanceLoop enh results.length results 0 0 0).2.2
      = .ok (results.countP (fun r => r.blurry || r.dark),
             results.countP (fun r => !(r.blurry || r.dark))) := by
    rw [hloop]
    simp
  have heq := run_pipeline_ok_eq n results enh outp _ _ h22
  refine ⟨?_, ?_, ?_, ?_⟩
  · rcases hmux with ⟨e, rfl⟩ | ⟨rc, rfl, hrc⟩
    · simp [reconstruct_video]
    · simp [reconstruct_video, hrc]
  · rw [heq]
  · rw [heq]
    simp only [List.getLast?_append, List.getLast?_cons_cons,
      List.getLast?_singleton, Option.or_some]
  · simp only [run_pipeline_task]
    rw [heq]

/-- C9 witness: one readable frame with a mux returning code 1 yields the
video-only artifact at the output path, and the empty-results pipeline run
with an ok reconstruct ends Completed. -/
theorem c9_mux_failure_video_only_fallback_witness :
    reconstruct_video [some ⟨100, 100, [7]⟩] "ml_output/reconstructed.mp4"
        true true (.ok 1)
      = .ok ("ml_output/reconstructed.mp4", Artifact.videoOnly, 1)
    ∧ (run_pipeline_task (.ok "bucket/key") (.ok 1) (.ok [])
        (fun _ => .ok true) (.ok "ml_output/reconstructed.mp4") (.ok ())).2
      = .ok "enhanced/reconstructed.mp4" := by
  obtain ⟨h1, -, -, h4⟩ := c9_mux_failure_video_only_fallback
    ⟨100, 100, [7]⟩ [] "ml_output/reconstructed.mp4" "bucket/key" (.ok 1) []
    (fun _ => .ok true) 1
    (Or.inr ⟨1, rfl, by decide⟩) (fun _ => rfl)
  exact ⟨h1, h4⟩

/-- The head of an ascending chain is at least the chain's bound. -/
lemma chain_head_le {a : ℚ} {l : List ℚ} (h : List.Chain (· ≤ ·) a l) :
    ∀ y ∈ l.head?, a ≤ y := by
  cases l with
  | nil => simp
  | cons b t =>
    cases h with
    | cons hab _ => simpa using hab

/-- Every run of run_pipeline, failed at any stage or fully successful, emits
percents in non-decreasing order, emits no terminal event itself, and on an
ok outcome ends with the single 100-percent COMPLETE event, which also
carries the last percent. -/
lemma run_pipeline_trace_props (extract : Except String Nat)
    (analyze : Except String (List AnalyzedFrame))
    (enh : Nat → Except String Bool) (reconstruct : Except String String) :
    List.Chain' (· ≤ ·)
      ((run_pipeline extract analyze enh reconstruct).1.filterMap Event.percentOf)
    ∧ (run_pipeline extract analyze enh reconstruct).1.countP Event.isTerminal = 0
    ∧ ∀ res, (run_pipeline extract analyze enh reconstruct).2.2 = .ok res →
        (run_pipeline extract analyze enh reconstruct).1.getLast?
          = some (pe .COMPLETE 100)
        ∧ ((run_pipeline extract analyze enh reconstruct).1.filterMap
            Event.percentOf).getLast? = some 100 := by
  cases extract with
  | error e =>
    refine ⟨?_, ?_, ?_⟩
    · simp only [run_pipeline]
      norm_num [List.filterMap_cons, Event.percentOf, pe, List.chain'_cons,
        List.chain'_singleton]
    · simp only [run_pipeline]
      decide
    · intro res h
      simp only [run_pipeline] at h
      exact Except.noConfusion h
  | ok tf =>
    cases analyze with
    | error e =>
      refine ⟨?_, ?_, ?_⟩
      · simp only [run_pipeline]
        norm_num [List.filterMap_cons, Event.percentOf, pe, List.chain'_cons,
          List.chain'_singleton]
      · simp only [run_pipeline]
        decide
      · intro res h
        simp only [run_pipeline] at h
        exact Except.noConfusion h
    | ok results =>
      have hchain := enhanceLoop_percents_chain enh results.length results 0 0 0
      rw [pctAt_zero] at hchain
      have hle85 := enhanceLoop_percents_le_85 enh results.length results 0 0 0
        (by simp)
      have hterm0 := enhanceLoop_no_terminal enh results.length results 0 0 0
      have hlit : ([pe .INIT 0, pe .SETUP 5, pe .SETUP 10, pe .EXTRACT 15,
          pe .EXTRACT 30, pe .ANALYZE 35, pe .ANALYZE 50, pe .ANALYZE 50,
          pe .ENHANCE 55].filterMap Event.percentOf)
          = ([0, 5, 10, 15, 30, 35, 50, 50, 55] : List ℚ) := rfl
      cases hL : (enhanceLoop enh results.length results 0 0 0).2.2 with
      | error e =>
        have hpipe : run_pipeline (.ok tf) (.ok results) enh reconstruct
            = ([pe .INIT 0, pe .SETUP 5, pe .SETUP 10, pe .EXTRACT 15,
                pe .EXTRACT 30, pe .ANALYZE 35, pe .ANALYZE 50, pe .ANALYZE 50,
                pe .ENHANCE 55]
                ++ (enhanceLoop enh results.length results 0 0 0).1,
               (enhanceLoop enh results.length results 0 0 0).2.1,
               .error e) := by
          simp only [run_pipeline]
          rw [hL]
          simp
        refine ⟨?_, ?_, ?_⟩
        · rw [hpipe]
          simp only [List.filterMap_append, hlit]
          refine List.chain'_append.mpr
            ⟨by norm_num [List.chain'_cons, List.chain'_singleton], chain'_of_chain hchain, ?_⟩
          intro x hx y hy
          simp only [List.getLast?_cons_cons, List.getLast?_singleton,
            Option.mem_def, Option.some.injEq] at hx
          subst hx
          exact chain_head_le hchain y hy
        · rw [hpipe]
          simp only [List.countP_append, hterm0]
          decide
        · intro res h
          rw [hpipe] at h
          exact Except.noConfusion h
      | ok counters =>
        obtain ⟨ec, cc⟩ := counters
        cases reconstruct with
        | error e =>
          have hpipe : run_pipeline (.ok tf) (.ok results) enh (.error e)
              = ([pe .INIT 0, pe .SETUP 5, pe .SETUP 10, pe .EXTRACT 15,
                  pe .EXTRACT 30, pe .ANALYZE 35, pe .ANALYZE 50, pe .ANALYZE 50,
                  pe .ENHANCE 55]
                  ++ ((enhanceLoop enh results.length results 0 0 0).1
                  ++ [pe .ENHANCE 85, pe .RECONSTRUCT 90]),
                 (enhanceLoop enh results.length results 0 0 0).2.1,
                 .error e) := by
            simp only [run_pipeline]
            rw [hL]
            simp
          have h85 : List.Chain (· ≤ ·) 55
              (((enhanceLoop enh results.length results 0 0 0).1.filterMap
                Event.percentOf) ++ [85]) :=
            chain_snoc_of_le hchain (by norm_num) hle85
          have hbig : List.Chain (· ≤ ·) 55
              (((enhanceLoop enh results.length results 0 0 0).1.filterMap
                Event.percentOf) ++ 85 :: [90]) :=
            List.chain_split.mpr ⟨h85, .cons (by norm_num) .nil⟩
          refine ⟨?_, ?_, ?_⟩
          · rw [hpipe]
            simp only [List.filterMap_append, hlit]
            have hlit2 : ([pe .ENHANCE 85, pe .RECONSTRUCT 90].filterMap
                Event.percentOf) = ([85, 90] : List ℚ) := rfl
            rw [hlit2]
            refine List.chain'_append.mpr
              ⟨by norm_num [List.chain'_cons, List.chain'_singleton],
               chain'_of_chain hbig, ?_⟩
            intro x hx y hy
            simp only [List.getLast?_cons_cons, List.getLast?_singleton,
              Option.mem_def, Option.some.injEq] at hx
            subst hx
            exact chain_head_le hbig y hy
          · rw [hpipe]
            simp only [List.countP_append, hterm0]
            decide
          · intro res h
            rw [hpipe] at h
            exact Except.noConfusion h
        | ok outp =>
          have hpipe := run_pipeline_ok_eq tf results enh outp ec cc hL
          have h85 : List.Chain (· ≤ ·) 55
              (((enhanceLoop enh results.length results 0 0 0).1.filterMap
                Event.percentOf) ++ [85]) :=
            chain_snoc_of_le hchain (by norm_num) hle85
          have hbig : List.Chain (· ≤ ·) 55
              (((enhanceLoop enh results.length results 0 0 0).1.filterMap
                Event.percentOf) ++ 85 :: [90, 95, 100]) :=
            List.chain_split.mpr
              ⟨h85, .cons (by norm_num) (.cons (by norm_num)
                (.cons (by norm_num) .nil))⟩
          refine ⟨?_, ?_, ?_⟩
          · rw [hpipe]
            simp only [List.filterMap_append, hlit]
            have hlit4 : ([pe .ENHANCE 85, pe .RECONSTRUCT 90, pe .RECONSTRUCT 95,
                pe .COMPLETE 100].filterMap Event.percentOf)
                = ([85, 90, 95, 100] : List ℚ) := rfl
            rw [hlit4]
            refine List.chain'_append.mpr
              ⟨by norm_num [List.chain'_cons, List.chain'_singleton],
               chain'_of_chain hbig, ?_⟩
            intro x hx y hy
            simp only [List.getLast?_cons_cons, List.getLast?_singleton,
              Option.mem_def, Option.some.injEq] at hx
            subst hx
            exact chain_head_le hbig y hy
          · rw [hpipe]
            simp only [List.countP_append, hterm0]
            decide
          · intro res h
            constructor
            · rw [hpipe]
              simp only [List.getLast?_append, List.getLast?_cons_cons,
                List.getLast?_singleton, Option.or_some]
            · rw [hpipe]
              simp only [List.filterMap_append, hlit]
              have hlit4 : ([pe .ENHANCE 85, pe .RECONSTRUCT 90,
                  pe .RECONSTRUCT 95, pe .COMPLETE 100].filterMap
                  Event.percentOf) = ([85, 90, 95, 100] : List ℚ) := rfl
              rw [hlit4]
              simp only [List.getLast?_append, List.getLast?_cons_cons,
                List.getLast?_singleton, Option.or_some]

/-- C3: for every run of the task, whatever each stage's outcome, the
progress events on the channel carry non-decreasing percents; the trace holds
exactly one terminal event, namely its last event; on a success outcome that
terminal is the SUCCESS publication carrying the output reference, preceded
by percents ending in the 100-percent completion value; and on an error
outcome the terminal is the single FAILURE event carrying the error. -/
theorem c3_monotone_percents_single_terminal
    (download : Except String String) (extract : Except String Nat)
    (analyze : Except String (List AnalyzedFrame))
    (enh : Nat → Except String Bool) (reconstruct : Except String String)
    (upload : Except String Unit) :
    List.Chain' (· ≤ ·)
      ((run_pipeline_task download extract analyze enh reconstruct
        upload).1.filterMap Event.percentOf)
    ∧ (run_pipeline_task download extract analyze enh reconstruct
        upload).1.countP Event.isTerminal = 1
    ∧ (∃ last, (run_pipeline_task download extract analyze enh reconstruct
          upload).1.getLast? = some last ∧ last.isTerminal = true)
    ∧ (∀ out, (run_pipeline_task download extract analyze enh reconstruct
          upload).2 = .ok out →
        (run_pipeline_task download extract analyze enh reconstruct
          upload).1.getLast? = some (.completed out)
        ∧ ((run_pipeline_task download extract analyze enh reconstruct
            upload).1.filterMap Event.percentOf).getLast? = some 100)
    ∧ (∀ msg, (run_pipeline_task download extract analyze enh reconstruct
          upload).2 = .error msg →
        (run_pipeline_task download extract analyze enh reconstruct
          upload).1.getLast? = some (.failed msg)) := by
  cases download with
  | error e =>
    refine ⟨?_, ?_, ?_, ?_, ?_⟩
    · simp [run_pipeline_task, Event.percentOf]
    · simp [run_pipeline_task, Event.isTerminal]
    · exact ⟨.failed e, by simp [run_pipeline_task], rfl⟩
    · intro out h
      simp only [run_pipeline_task] at h
      exact Except.noConfusion h
    · intro msg h
      simp only [run_pipeline_task, Except.error.injEq] at h
      subst h
      simp [run_pipeline_task]
  | ok src =>
    obtain ⟨hch, hterm, hok3⟩ := run_pipeline_trace_props extract analyze enh
      reconstruct
    cases hres : (run_pipeline extract analyze enh reconstruct).2.2 with
    | error e =>
      have htask : run_pipeline_task (.ok src) extract analyze enh reconstruct
            upload
          = ((run_pipeline extract analyze enh reconstruct).1 ++ [.failed e],
             .error e) := by
        simp only [run_pipeline_task, hres]
      refine ⟨?_, ?_, ?_, ?_, ?_⟩
      · rw [htask]
        simpa [Event.percentOf] using hch
      · rw [htask]
        simp [List.countP_append, hterm, Event.isTerminal]
      · exact ⟨.failed e, by rw [htask]; exact List.getLast?_concat _, rfl⟩
      · intro out h
        rw [htask] at h
        exact Except.noConfusion h
      · intro msg h
        rw [htask] at h
        simp only [Except.error.injEq] at h
        subst h
        rw [htask]
        exact List.getLast?_concat _
    | ok res4 =>
      cases upload with
      | error e =>
        have htask : run_pipeline_task (.ok src) extract analyze enh reconstruct
              (.error e)
            = ((run_pipeline extract analyze enh reconstruct).1 ++ [.failed e],
               .error e) := by
          simp only [run_pipeline_task, hres]
        refine ⟨?_, ?_, ?_, ?_, ?_⟩
        · rw [htask]
          simpa [Event.percentOf] using hch
        · rw [htask]
          simp [List.countP_append, hterm, Event.isTerminal]
        · exact ⟨.failed e, by rw [htask]; exact List.getLast?_concat _, rfl⟩
        · intro out h
          rw [htask] at h
          exact Except.noConfusion h
        · intro msg h
          rw [htask] at h
          simp only [Except.error.injEq] at h
          subst h
          rw [htask]
          exact List.getLast?_concat _
      | ok u =>
        have htask : run_pipeline_task (.ok src) extract analyze enh reconstruct
              (.ok u)
            = ((run_pipeline extract analyze enh reconstruct).1
                ++ [.completed "enhanced/reconstructed.mp4"],
               .ok "enhanced/reconstructed.mp4") := by
          simp only [run_pipeline_task, hres]
        obtain ⟨hlast, hpct⟩ := hok3 res4 hres
        refine ⟨?_, ?_, ?_, ?_, ?_⟩
        · rw [htask]
          simpa [Event.percentOf] using hch
        · rw [htask]
          simp [List.countP_append, hterm, Event.isTerminal]
        · exact ⟨.completed "enhanced/reconstructed.mp4",
            by rw [htask]; exact List.getLast?_concat _, rfl⟩
        · intro out h
          rw [htask] at h
          simp only [Except.ok.injEq] at h
          subst h
          refine ⟨by rw [htask]; exact List.getLast?_concat _, ?_⟩
          rw [htask]
          simpa [Event.percentOf] using hpct
        · intro msg h
          rw [htask] at h
          exact Except.noConfusion h

end VideoEnhancer
